import Mathlib

/-!
Verification of the layered configuration store in `src/index.js` of
`superhero/config`.

The embedding models JavaScript values as the inductive type `Value`
(`undefined` is represented as `Option.none` at the points where the source
can produce it).  The embedding is value-based: object identity (reference
equality between two composite values) is not modelled; JavaScript `===`
between two distinct composite values is `false`, and we assume query
arguments do not alias nodes of stored layer trees.  Own data properties are
modelled for objects, arrays (index keys and `length`) and strings (index
keys and `length`); inherited prototype properties are abstracted away.
-/

namespace SuperheroConfig

/-- A JavaScript value as it occurs in configuration trees: `null`, booleans,
numbers (modelled as integers; the program performs no arithmetic), strings,
arrays and plain objects (insertion-ordered key/value fields). -/
inductive Value where
  | null : Value
  | bool : Bool → Value
  | num : Int → Value
  | str : String → Value
  | arr : List Value → Value
  | obj : List (String × Value) → Value

/-- JavaScript truthiness of a value (`undefined` is handled at call sites). -/
def truthy : Value → Bool
  | .null => false
  | .bool b => b
  | .num n => n != 0
  | .str s => s != ""
  | .arr _ => true
  | .obj _ => true

/-- `typeof v === 'object'` for a defined value: true for `null`, arrays and
objects. -/
def Value.typeofObject : Value → Bool
  | .null => true
  | .arr _ => true
  | .obj _ => true
  | _ => false

/-- First field of an object field list with the given key, if any
(JavaScript object keys are unique; the list model keeps the first match). -/
def lookupField (fields : List (String × Value)) (key : String) : Option Value :=
  (fields.find? (fun p => p.1 == key)).map (fun p => p.2)

/-- Whether an object field list has a field with the given key. -/
def hasKey (fields : List (String × Value)) (key : String) : Bool :=
  fields.any (fun p => p.1 == key)

/-- A string is a canonical array index (the decimal numeral of some `n`,
without leading zeros), as used by JavaScript array element access. -/
def parseIndex (s : String) : Option Nat :=
  match s.toNat? with
  | some n => if toString n = s then some n else none
  | none => none

/-- Own-property access `v[key]` for a defined, non-null base value:
object fields by name, array elements by canonical index plus `length`,
string characters by canonical index plus `length`; `undefined` (`none`)
otherwise.  (`null` and `undefined` bases throw in JavaScript and are handled
separately where reachable.) -/
def getProp (v : Value) (key : String) : Option Value :=
  match v with
  | .obj fields => lookupField fields key
  | .arr elems =>
      if key = "length" then some (.num elems.length)
      else (parseIndex key).bind (fun i => elems.get? i)
  | .str s =>
      if key = "length" then some (.num s.length)
      else (parseIndex key).bind (fun i => (s.data.get? i).map (fun c => .str (String.mk [c])))
  | _ => none

/-! ## The path parser (src/index.js line 40)

`configPath.split(/(?<!\\)[\/]/)` followed by
`.map(key => key.replace(/\\([\/])/g, '$1'))`: split on every slash not
immediately preceded by a backslash, then strip the backslash from every
backslash-slash pair inside each segment. -/

/-- The lookbehind split: walk the characters remembering the previous raw
character; a `/` whose predecessor is not `\` ends the current segment. -/
def splitSegs : List Char → Option Char → List Char → List (List Char)
  | [], _, cur => [cur.reverse]
  | c :: rest, prev, cur =>
      if c = '/' ∧ prev ≠ some '\\' then
        cur.reverse :: splitSegs rest (some c) []
      else
        splitSegs rest (some c) (c :: cur)

/-- The unescape pass `replace(/\\([\/])/g, '$1')`: every backslash
immediately followed by a slash is dropped, keeping the slash. -/
def unescape : List Char → List Char
  | [] => []
  | '\\' :: '/' :: rest => '/' :: unescape rest
  | c :: rest => c :: unescape rest

/-- The parsed key segments of a config path (split, then unescape each
segment), exactly as `src/index.js` line 40 computes them. -/
def parseKeys (configPath : String) : List String :=
  (splitSegs configPath.data none []).map (fun seg => String.mk (unescape seg))

/-! ## Traversal (src/index.js line 41) -/

/-- One step of `keys.reduce((obj, key) => obj && obj[key], config)`:
`undefined` propagates, a falsy accumulator is returned unchanged by `&&`,
a truthy accumulator is indexed. -/
def reduceStep (acc : Option Value) (key : String) : Option Value :=
  match acc with
  | none => none
  | some v => if truthy v then getProp v key else some v

/-- `keys.reduce((obj, key) => obj && obj[key], config)`. -/
def reduceKeys (config : Value) (keys : List String) : Option Value :=
  keys.foldl reduceStep (some config)

/-! ## The deep primitives of `@superhero/deep`

The package `@superhero/deep` is an external collaborator whose source is not
part of this repository; the spec declares its contract (§1 OUT OF SCOPE,
§4.3, §4.4).  The three primitives the store uses are modelled from those
spec sentences. -/

mutual

/-- Modelled from the spec: `deep.merge` applied as `merge(fallback, found)` —
"if both are present and are composite (map/sequence), merge recursively with
found-value keys taking precedence over fallback keys, but fallback supplying
any keys absent from the found value; if the found value is a scalar, return
the found value unchanged (fallback ignored)" (§4.3; "right overtaking left,
fallback semantics", §1).  Sequences merge index-wise. -/
def mergeVals : Value → Value → Value
  | .obj fb, .obj fo => .obj (mergeFields fb fo ++ fo.filter (fun p => !hasKey fb p.1))
  | .arr fb, .arr fo => .arr (mergeElems fb fo)
  | _, f => f
termination_by a _ => sizeOf a

/-- Field part of `mergeVals`: every fallback field keeps its slot, its value
merged with the found value under the same key when one exists. -/
def mergeFields : List (String × Value) → List (String × Value) → List (String × Value)
  | [], _ => []
  | (k, v) :: rest, fo =>
      (k, match lookupField fo k with
          | some w => mergeVals v w
          | none => v) :: mergeFields rest fo
termination_by l _ => sizeOf l

/-- Element part of `mergeVals`: index-wise recursive merge, the longer
sequence supplying the tail. -/
def mergeElems : List Value → List Value → List Value
  | [], fo => fo
  | fb, [] => fb
  | b :: bs, f :: fs => mergeVals b f :: mergeElems bs fs
termination_by l _ => sizeOf l

end

mutual

/-- Modelled from the spec: `deep.assign(target, source)` — "deep-merges the
clone into the merged tree (clone's values win on key collision, recursively
for composite values; scalars and arrays replace wholesale)" (§4.4).  The
result value of assigning `source` into `target`. -/
def deepAssign : Value → Value → Value
  | .obj t, .obj s => .obj (assignFields t s ++ s.filter (fun p => !hasKey t p.1))
  | _, s => s
termination_by a _ => sizeOf a

/-- Field part of `deepAssign`: target fields keep their slots, updated
recursively by same-key source fields; fresh source fields are appended. -/
def assignFields : List (String × Value) → List (String × Value) → List (String × Value)
  | [], _ => []
  | (k, v) :: rest, s =>
      (k, match lookupField s k with
          | some w => deepAssign v w
          | none => v) :: assignFields rest s
termination_by l _ => sizeOf l

end

/-- Modelled from the spec: `deep.merge(fallback, found)` at the top level,
where either side may be absent (`undefined`): "if the raw result is absent,
return `fallback` as-is" (§4.3). -/
def deepMerge (fallback found : Option Value) : Option Value :=
  match found with
  | none => fallback
  | some f =>
      match fallback with
      | none => some f
      | some b => some (mergeVals b f)

/-! ## The Config store (src/index.js) -/

/-- A `ConfigError` as the source builds it: an `Error` with a message and a
`code` property. -/
structure ConfigError where
  message : String
  code : String
deriving DecidableEq

/-- The state of a `Config` instance: the private merged tree `#config`
(initially `{}`), the `#frozen` flag and the insertion-ordered layer registry
`#layers` (a JavaScript `Map`, modelled as an association list). -/
structure Store where
  config : Value
  frozen : Bool
  layers : List (String × Value)

/-- A freshly constructed `Config`: empty merged tree, not frozen, no
layers. -/
def emptyStore : Store :=
  ⟨.obj [], false, []⟩

/-- `get isFrozen()`. -/
def Store.isFrozen (s : Store) : Bool :=
  s.frozen

/-- `traverse(config, configPath, fallback)` (src/index.js lines 37–42):
split the path into unescaped keys, reduce with `obj && obj[key]`, and
combine with the fallback through `deep.merge`. -/
def traverse (config : Value) (configPath : String) (fallback : Option Value) : Option Value :=
  deepMerge fallback (reduceKeys config (parseKeys configPath))

/-- `find(configPath, fallback)` (src/index.js lines 26–29): traverse the
instance's merged tree. -/
def find (s : Store) (configPath : String) (fallback : Option Value) : Option Value :=
  traverse s.config configPath fallback

/-- `Map.set` on the layer registry: replacing an existing key keeps its
original insertion slot; a new key is appended. -/
def layersSet (layers : List (String × Value)) (key : String) (v : Value) :
    List (String × Value) :=
  if layers.any (fun p => p.1 == key) then
    layers.map (fun p => if p.1 == key then (key, v) else p)
  else
    layers ++ [(key, v)]

/-- The error thrown by `assign` on a frozen instance (src/index.js lines
144–146). -/
def frozenError : ConfigError :=
  ⟨"The config instance is in a frozen state", "E_CONFIG_FROZEN"⟩

/-- The unfrozen branch of `assign(config, filepath)` (src/index.js lines
148–153): deep-assign a clone of the tree into the merged tree and record the
layer.  Cloning is the identity on values (it only breaks aliasing, which the
value model does not observe). -/
def assignCore (s : Store) (config : Value) (filepath : String) : Store :=
  ⟨deepAssign s.config config, s.frozen, layersSet s.layers filepath config⟩

/-- `assign(config, filepath = '')` (src/index.js lines 140–154): throws
`E_CONFIG_FROZEN` when frozen, otherwise merges and records.  Calls that omit
`filepath` pass `""`, the source default. -/
def assign (s : Store) (config : Value) (filepath : String) : Except ConfigError Store :=
  if s.isFrozen then .error frozenError else .ok (assignCore s config filepath)

/-- `freeze()` (src/index.js lines 156–160): deep-freezes the merged tree
(a mutability attribute with no effect on its value) and sets the flag. -/
def freeze (s : Store) : Store :=
  ⟨s.config, true, s.layers⟩

/-- `has(filepath)` (src/index.js lines 162–165). -/
def hasLayer (s : Store) (filepath : String) : Bool :=
  s.layers.any (fun p => p.1 == filepath)

/-- `findAbsolutePathByConfigPath(configPath)` (src/index.js lines 53–66):
walk the layers in reverse insertion order and return the identifier of the
first whose raw tree has a defined value at the path. -/
def findAbsolutePathByConfigPath (s : Store) (configPath : String) : Option String :=
  (s.layers.reverse.find? (fun p => (traverse p.2 configPath none).isSome)).map (fun p => p.1)

/-- `findAbsolutePathAndValueByConfigPath(configPath)` (src/index.js lines
78–94): walk the layers forward, `unshift`-ing a `(filepath, value)` pair for
every layer with a defined value at the path. -/
def findAbsolutePathAndValueByConfigPath (s : Store) (configPath : String) :
    List (String × Value) :=
  s.layers.foldl
    (fun entries p =>
      match traverse p.2 configPath none with
      | some v => (p.1, v) :: entries
      | none => entries)
    []

/-! ## `findAbsolutePathByConfigEntry` and its `partialEquals`
(src/index.js lines 107–132)

`partialEquals` compares with JavaScript `===`, `Array.isArray`,
`Array.prototype.includes` and `Object.keys`; `typeof null === 'object'`, so
`null` operands reach `Object.keys(null)` / `null[key]`, which throw
`TypeError`.  The comparison is therefore modelled in `Except String`. -/

/-- JavaScript strict equality `===` between two possibly-`undefined`
operands, under the no-aliasing assumption: primitives compare by value, two
composite operands are distinct objects and compare unequal.
(`Array.prototype.includes` uses SameValueZero, which agrees with `===` on
every value the integer-number model can express.) -/
def jsEq : Option Value → Option Value → Bool
  | none, none => true
  | some .null, some .null => true
  | some (.bool a), some (.bool b) => a == b
  | some (.num a), some (.num b) => a == b
  | some (.str a), some (.str b) => a == b
  | _, _ => false

/-- `Object.keys` on a `typeof 'object'` operand: field names of an object,
canonical index strings of an array, a `TypeError` for `null`. -/
def objectKeysE : Value → Except String (List String)
  | .obj fields => .ok (fields.map (fun p => p.1))
  | .arr elems => .ok ((List.range elems.length).map (fun i => toString i))
  | _ => .error "TypeError: Cannot convert undefined or null to object"

/-- Property access `base[key]` as an expression: throws on `null` or
`undefined` bases, otherwise own-property lookup. -/
def propAccessE : Option Value → String → Except String (Option Value)
  | some .null, _ => .error "TypeError: Cannot read properties of null"
  | none, _ => .error "TypeError: Cannot read properties of undefined"
  | some v, _key => .ok (getProp v _key)

/-- `Object.keys(configValue).every(key => configValue[key] === value[key])`:
left-to-right, short-circuiting on the first `false`, propagating the
`TypeError` thrown by `value[key]` when `value` is `null`. -/
def everyKeyE (cv : Value) (value : Option Value) : List String → Except String Bool
  | [] => .ok true
  | k :: ks => do
      let rhs ← propAccessE value k
      if jsEq (getProp cv k) rhs then everyKeyE cv value ks else .ok false

/-- `partialEquals(value)` from `findAbsolutePathByConfigEntry`
(src/index.js lines 109–114), with `cv` the captured `configValue`:
both `typeof 'object'` → (both arrays → expected-subset via `includes`,
otherwise the `Object.keys` branch); otherwise `===`. -/
def partialEquals (cv value : Option Value) : Except String Bool :=
  match cv, value with
  | some (.arr xs), some (.arr ys) =>
      .ok (xs.all (fun x => ys.any (fun y => jsEq (some x) (some y))))
  | some c, some v =>
      if c.typeofObject ∧ v.typeofObject then do
        let keys ← objectKeysE c
        everyKeyE c (some v) keys
      else .ok (jsEq (some c) (some v))
  | cv', value' => .ok (jsEq cv' value')

/-- The loop of `findAbsolutePathByConfigEntry` (src/index.js lines 116–131):
iterate the layers forward, overwriting the remembered identifier on every
match, never breaking early. -/
def findEntryLoop (cv : Option Value) (configPath : String) :
    List (String × Value) → Option String → Except String (Option String)
  | [], acc => .ok acc
  | (fp, cfg) :: rest, acc => do
      let b ← partialEquals cv (traverse cfg configPath none)
      findEntryLoop cv configPath rest (if b then some fp else acc)

/-- `findAbsolutePathByConfigEntry(configPath, configValue)` (src/index.js
lines 107–132). -/
def findAbsolutePathByConfigEntry (s : Store) (configPath : String) (configValue : Option Value) :
    Except String (Option String) :=
  findEntryLoop configValue configPath s.layers none

/-- Whether a layer pair counts as a match for `findAbsolutePathByConfigEntry`
(its raw tree, traversed at the path, partial-equals the expected value). -/
def matchesLayer (cv : Option Value) (configPath : String) (p : String × Value) : Bool :=
  match partialEquals cv (traverse p.2 configPath none) with
  | .ok true => true
  | _ => false

/-! ## Reference definition: the path grammar of the spec (§4.2)

"Scan left to right; a `/` not preceded by `\` ends the current segment; a
`\` followed by a delimiter is replaced by the bare delimiter character and
does not end the segment."  (`src/index.js` recognises only the slash
delimiter.) -/

/-- One-pass scanner of the spec grammar; `cur` is the current segment's
unescaped characters in reverse. -/
def grammarGo : List Char → List Char → List String
  | [], cur => [String.mk cur.reverse]
  | '\\' :: '/' :: rest, cur => grammarGo rest ('/' :: cur)
  | '/' :: rest, cur => String.mk cur.reverse :: grammarGo rest []
  | c :: rest, cur => grammarGo rest (c :: cur)

/-- The spec's path grammar (§4.2), as a reference to compare with the
source's split-then-unescape parser. -/
def pathGrammarSpec (s : String) : List String :=
  grammarGo s.data []

/-- `unescape` on a cons cell that is not a backslash-slash pair passes the
head through. -/
theorem unescape_cons_ne (c : Char) (rest : List Char)
    (h : ∀ rest', c = '\\' → rest = '/' :: rest' → False) :
    unescape (c :: rest) = c :: unescape rest := by
  rw [unescape.eq_def]
  split
  · simp_all
  · rename_i rest' heq
    obtain ⟨hc, hr⟩ := List.cons_eq_cons.mp heq
    exact absurd (h rest' hc hr) (fun f => f)
  · rename_i c' rest' _ heq
    obtain ⟨hc, hr⟩ := List.cons_eq_cons.mp heq
    subst hc hr
    rfl

/-- Appending a backslash-slash pair commutes with `unescape` (the pair can
never borrow a backslash from the left part, because pairs end in a slash). -/
theorem unescape_append_pair (xs zs : List Char) :
    unescape (xs ++ '\\' :: '/' :: zs) = unescape xs ++ '/' :: unescape zs := by
  induction xs using unescape.induct with
  | case1 => rfl
  | case2 rest ih => simpa [unescape] using ih
  | case3 c rest h ih =>
      have hcons : unescape ((c :: rest) ++ '\\' :: '/' :: zs)
          = c :: unescape (rest ++ '\\' :: '/' :: zs) := by
        apply unescape_cons_ne
        intro rest' hc hr
        match rest, hr with
        | [], hr => exact absurd (List.cons_eq_cons.mp hr).1 (by decide)
        | r :: rs, hr => exact h rs hc (by rw [(List.cons_eq_cons.mp hr).1])
      rw [hcons, ih, unescape_cons_ne c rest h]
      rfl

/-- Appending a single non-slash character commutes with `unescape`. -/
theorem unescape_append_single (xs : List Char) (c : Char) (hc : c ≠ '/') :
    unescape (xs ++ [c]) = unescape xs ++ [c] := by
  induction xs using unescape.induct with
  | case1 =>
      simp only [List.nil_append]
      apply unescape_cons_ne
      intro rest' _ hr
      exact absurd hr (by simp)
  | case2 rest ih => simpa [unescape] using ih
  | case3 d rest h ih =>
      have hcons : unescape ((d :: rest) ++ [c]) = d :: unescape (rest ++ [c]) := by
        apply unescape_cons_ne
        intro rest' hd hr
        match rest, hr with
        | [], hr => exact absurd (List.cons_eq_cons.mp hr).1 hc
        | r :: rs, hr => exact h rs hd (by rw [(List.cons_eq_cons.mp hr).1])
      rw [hcons, ih, unescape_cons_ne d rest h]
      rfl

/-- `grammarGo` on a cons cell that matches neither the escape pair nor a
bare delimiter extends the current segment. -/
theorem grammarGo_cons_ne (c : Char) (rest g : List Char)
    (h1 : ∀ rest', c = '\\' → rest = '/' :: rest' → False) (h2 : c ≠ '/') :
    grammarGo (c :: rest) g = grammarGo rest (c :: g) := by
  rw [grammarGo.eq_def]
  split
  · simp_all
  · rename_i heq
    obtain ⟨hc, hr⟩ := List.cons_eq_cons.mp heq
    exact absurd (h1 _ hc hr) (fun f => f)
  · rename_i heq
    exact absurd (List.cons_eq_cons.mp heq).1 h2
  · rename_i c' rest' _ _ _ heq
    obtain ⟨hc, hr⟩ := List.cons_eq_cons.mp heq
    subst hc hr
    rfl

/-- The lookbehind split followed by per-segment unescaping agrees with the
one-pass spec grammar, for every aligned scanner state: `prev` is the raw
predecessor character (never an escaping backslash when the head is a slash,
which holds in every reachable aligned state) and the grammar's segment
accumulator is the unescaped raw accumulator. -/
theorem splitSegs_grammar (cs g : List Char) :
    ∀ (prev : Option Char) (curR : List Char),
    (prev = some '\\' → cs.head? ≠ some '/') →
    g = (unescape curR.reverse).reverse →
    (splitSegs cs prev curR).map (fun seg => String.mk (unescape seg)) = grammarGo cs g := by
  induction cs, g using grammarGo.induct with
  | case1 g =>
      intro prev curR _ hg
      simp [splitSegs, grammarGo, hg]
  | case2 rest g ih =>
      intro prev curR _ hg
      have step : splitSegs ('\\' :: '/' :: rest) prev curR
          = splitSegs rest (some '/') ('/' :: '\\' :: curR) := by
        rw [splitSegs, if_neg (by simp), splitSegs, if_neg (by simp)]
      rw [step]
      rw [grammarGo]
      apply ih (some '/') ('/' :: '\\' :: curR) (by simp)
      have : ('/' :: '\\' :: curR).reverse = curR.reverse ++ '\\' :: '/' :: [] := by simp
      rw [this, unescape_append_pair, hg]
      simp [unescape]
  | case3 rest g ih =>
      intro prev curR h hg
      have hprev : prev ≠ some '\\' := by
        intro hp
        exact h hp rfl
      have step : splitSegs ('/' :: rest) prev curR
          = curR.reverse :: splitSegs rest (some '/') [] := by
        rw [splitSegs, if_pos ⟨rfl, hprev⟩]
      rw [step]
      rw [grammarGo]
      simp only [List.map_cons]
      rw [ih (some '/') [] (by simp) rfl, hg]
      simp
  | case4 c rest g h1 h2 ih =>
      intro prev curR h hg
      have hc : ¬(c = '/' ∧ prev ≠ some '\\') := by
        intro ⟨hcc, _⟩
        exact h2 hcc
      have step : splitSegs (c :: rest) prev curR
          = splitSegs rest (some c) (c :: curR) := by
        rw [splitSegs, if_neg hc]
      rw [step, grammarGo_cons_ne c rest g h1 h2]
      apply ih (some c) (c :: curR)
      · intro hcb
        have hcb' : c = '\\' := by injection hcb
        intro hhd
        match rest, hhd with
        | r :: rs, hhd =>
            have hr : r = '/' := by simpa using hhd
            exact h1 rs hcb' (by rw [hr])
      · have : (c :: curR).reverse = curR.reverse ++ [c] := by simp
        rw [this, unescape_append_single curR.reverse c h2, hg]
        simp

/-! ## Reference definition: traversal, as the code actually behaves

The spec (§4.3) claims a missing segment or untraversable intermediate value
yields `undefined`; the code's `obj && obj[key]` instead returns a falsy
intermediate value itself.  This reference renders the amended behaviour as
a direct recursion, to compare with the source's `foldl`. -/

/-- Amended traversal: `undefined` propagates; a falsy intermediate value is
returned itself for the whole path; a truthy value is indexed by own-property
access (which yields `undefined` for non-containers, except string index and
length keys). -/
def traversalSpecAmended : Option Value → List String → Option Value
  | r, [] => r
  | none, _ :: _ => none
  | some v, k :: ks => if truthy v then traversalSpecAmended (getProp v k) ks else some v

theorem traversalSpecAmended_none (ks : List String) :
    traversalSpecAmended none ks = none := by
  cases ks <;> rfl

theorem traversalSpecAmended_falsy (v : Value) (hv : ¬ truthy v) (ks : List String) :
    traversalSpecAmended (some v) ks = some v := by
  cases ks with
  | nil => rfl
  | cons k ks => simp [traversalSpecAmended, hv]

/-- The source's `foldl` rendering of `keys.reduce((obj, key) => obj &&
obj[key], config)` agrees with the direct recursion, from any accumulator. -/
theorem foldl_reduceStep_eq (ks : List String) :
    ∀ acc : Option Value, ks.foldl reduceStep acc = traversalSpecAmended acc ks := by
  induction ks with
  | nil => intro acc; cases acc <;> rfl
  | cons k ks ih =>
      intro acc
      match acc with
      | none => simp [List.foldl_cons, reduceStep, ih, traversalSpecAmended_none,
          traversalSpecAmended]
      | some v =>
          by_cases hv : truthy v
          · simp [List.foldl_cons, reduceStep, hv, ih, traversalSpecAmended]
          · simp [List.foldl_cons, reduceStep, hv, ih, traversalSpecAmended,
              traversalSpecAmended_falsy v hv]

/-! ## Helper lemmas for the provenance loops -/

theorem option_or_assoc {α : Type} (a b c : Option α) : (a.or b).or c = a.or (b.or c) := by
  cases a <;> rfl

theorem getLast?_cons_or {α : Type} (x : α) (l : List α) :
    (x :: l).getLast? = l.getLast?.or (some x) := by
  cases l with
  | nil => rfl
  | cons y ys =>
      rw [List.getLast?_cons_cons]
      have : (y :: ys).getLast?.isSome := by simp [List.getLast?_isSome]
      cases h : (y :: ys).getLast? with
      | none => rw [h] at this; simp at this
      | some z => rfl

/-- The forward overwrite loop of `findAbsolutePathByConfigEntry` returns the
last matching identifier (falling back to the accumulator), provided no
comparison throws. -/
theorem findEntryLoop_ok (cv : Option Value) (configPath : String) :
    ∀ (L : List (String × Value)) (acc : Option String),
    (∀ p ∈ L, (partialEquals cv (traverse p.2 configPath none)).isOk) →
    findEntryLoop cv configPath L acc
      = .ok (((L.filter (matchesLayer cv configPath)).map (fun p => p.1)).getLast?.or acc) := by
  intro L
  induction L with
  | nil => intro acc _; rfl
  | cons p rest ih =>
      intro acc hok
      obtain ⟨fp, cfg⟩ := p
      have hhead : (partialEquals cv (traverse cfg configPath none)).isOk := by
        simpa using hok (fp, cfg) (by simp)
      cases hb : partialEquals cv (traverse cfg configPath none) with
      | error e => rw [hb] at hhead; exact Bool.noConfusion hhead
      | ok b =>
          have hrest : ∀ p ∈ rest, (partialEquals cv (traverse p.2 configPath none)).isOk :=
            fun p hp => hok p (List.mem_cons_of_mem _ hp)
          have hmatch : matchesLayer cv configPath (fp, cfg) = b := by
            simp only [matchesLayer, hb]
            cases b <;> rfl
          rw [findEntryLoop, hb]
          simp only [Bind.bind, Except.bind]
          rw [ih _ hrest]
          cases b with
          | true =>
              rw [List.filter_cons_of_pos (by simp [hmatch])]
              simp only [List.map_cons, getLast?_cons_or, option_or_assoc, if_true]
              rfl
          | false =>
              rw [List.filter_cons_of_neg (by simp [hmatch])]
              simp

/-- The `unshift` loop of `findAbsolutePathAndValueByConfigPath` produces the
reverse of the forward-order matches, ahead of any prior accumulator. -/
theorem foldl_unshift_eq (configPath : String) :
    ∀ (L : List (String × Value)) (acc : List (String × Value)),
    L.foldl
        (fun entries p =>
          match traverse p.2 configPath none with
          | some v => (p.1, v) :: entries
          | none => entries)
        acc
      = (L.filterMap (fun p => (traverse p.2 configPath none).map (fun v => (p.1, v)))).reverse
          ++ acc := by
  intro L
  induction L with
  | nil => intro acc; simp
  | cons p rest ih =>
      intro acc
      cases h : traverse p.2 configPath none with
      | none => simp [List.foldl_cons, h, ih, List.filterMap_cons]
      | some v => simp [List.foldl_cons, h, ih, List.filterMap_cons]

/-! ## Sequences of assign calls -/

/-- Perform a sequence of (unfrozen) `assign` calls, each a tree and an
identifier, in order. -/
def applyCalls (s : Store) (calls : List (Value × String)) : Store :=
  calls.foldl (fun s c => assignCore s c.1 c.2) s

/-- Perform a sequence of anonymous `assign(config)` calls (source default
identifier `""`). -/
def applyAnonCalls (s : Store) (trees : List Value) : Store :=
  trees.foldl (fun s t => assignCore s t "") s

theorem applyCalls_config (calls : List (Value × String)) :
    ∀ s : Store, (applyCalls s calls).config
      = calls.foldl (fun acc c => deepAssign acc c.1) s.config := by
  induction calls with
  | nil => intro s; rfl
  | cons c rest ih => intro s; simp only [applyCalls, List.foldl_cons] at *; rw [ih]; rfl

theorem applyCalls_frozen (calls : List (Value × String)) :
    ∀ s : Store, (applyCalls s calls).frozen = s.frozen := by
  induction calls with
  | nil => intro s; rfl
  | cons c rest ih => intro s; simp only [applyCalls, List.foldl_cons] at *; rw [ih]; rfl

theorem applyAnonCalls_layers (trees : List Value) :
    ∀ s : Store, (applyAnonCalls s trees).layers
      = trees.foldl (fun L t => layersSet L "" t) s.layers := by
  induction trees with
  | nil => intro s; rfl
  | cons t rest ih => intro s; simp only [applyAnonCalls, List.foldl_cons] at *; rw [ih]; rfl

theorem applyAnonCalls_config (trees : List Value) :
    ∀ s : Store, (applyAnonCalls s trees).config
      = trees.foldl (fun acc t => deepAssign acc t) s.config := by
  induction trees with
  | nil => intro s; rfl
  | cons t rest ih => intro s; simp only [applyAnonCalls, List.foldl_cons] at *; rw [ih]; rfl

theorem layersSet_anon_single (u t : Value) :
    layersSet [("", u)] "" t = [("", t)] := by
  simp [layersSet]

theorem foldl_layersSet_anon (trees : List Value) (t : Value) :
    ∀ u : Value, (trees ++ [t]).foldl (fun L t => layersSet L "" t) [("", u)] = [("", t)] := by
  induction trees with
  | nil => intro u; simp [layersSet_anon_single]
  | cons v rest ih =>
      intro u
      simp only [List.cons_append, List.foldl_cons, layersSet_anon_single]
      exact ih v

/-! ## Keys of a merged object (for the fallback-defaulting claim) -/

theorem lookupField_append (xs ys : List (String × Value)) (k : String) :
    lookupField (xs ++ ys) k = (lookupField xs k).or (lookupField ys k) := by
  induction xs with
  | nil => simp [lookupField]
  | cons p rest ih =>
      by_cases h : p.1 == k
      · simp [lookupField, List.find?_cons, h]
      · simpa [lookupField, List.find?_cons, h] using ih

theorem hasKey_eq_isSome (fs : List (String × Value)) (k : String) :
    hasKey fs k = (lookupField fs k).isSome := by
  induction fs with
  | nil => rfl
  | cons p rest ih =>
      by_cases h : p.1 == k
      · simp [hasKey, lookupField, List.find?_cons, h]
      · simpa [hasKey, lookupField, List.find?_cons, h] using ih

theorem lookupField_mergeFields (vf : List (String × Value)) (k : String) :
    ∀ bf : List (String × Value),
    lookupField (mergeFields bf vf) k
      = (lookupField bf k).map (fun v =>
          match lookupField vf k with
          | some w => mergeVals v w
          | none => v) := by
  intro bf
  induction bf with
  | nil => simp [mergeFields, lookupField]
  | cons p rest ih =>
      obtain ⟨k', v'⟩ := p
      by_cases h : k' == k
      · have hk : k' = k := by simpa using h
        subst hk
        simp [mergeFields, lookupField, List.find?_cons]
      · rw [mergeFields]
        simp only [lookupField, List.find?_cons, h]
        simpa [lookupField] using ih

theorem lookupField_filter_fresh (bf : List (String × Value)) (k : String)
    (hk : ¬ hasKey bf k) :
    ∀ vf : List (String × Value),
    lookupField (vf.filter (fun p => !hasKey bf p.1)) k = lookupField vf k := by
  intro vf
  induction vf with
  | nil => rfl
  | cons p rest ih =>
      obtain ⟨k', v'⟩ := p
      by_cases hkk : k' == k
      · have : k' = k := by simpa using hkk
        subst this
        rw [List.filter_cons_of_pos (by simpa using hk)]
        simp [lookupField, List.find?_cons]
      · by_cases hb : hasKey bf k'
        · rw [List.filter_cons_of_neg (by simpa using hb)]
          rw [ih]
          simp [lookupField, List.find?_cons, hkk]
        · rw [List.filter_cons_of_pos (by simpa using hb)]
          simp only [lookupField, List.find?_cons, hkk]
          simpa [lookupField] using ih

/-- The key contents of a merged object: a key defined in the found value
takes the (recursively merged) found value; a key defined only in the
fallback keeps the fallback value. -/
theorem mergeVals_obj_key (bf vf : List (String × Value)) (k : String) :
    lookupField (mergeFields bf vf ++ vf.filter (fun p => !hasKey bf p.1)) k
      = match lookupField bf k, lookupField vf k with
        | some bv, some fv => some (mergeVals bv fv)
        | some bv, none => some bv
        | none, some fv => some fv
        | none, none => none := by
  rw [lookupField_append, lookupField_mergeFields]
  cases hb : lookupField bf k with
  | some bv =>
      cases hf : lookupField vf k <;> simp [Option.or]
  | none =>
      have : ¬ hasKey bf k := by rw [hasKey_eq_isSome, hb]; simp
      rw [lookupField_filter_fresh bf k this]
      cases hf : lookupField vf k <;> simp [Option.or]

/-! ## Reference definitions: partial-match equality -/

/-- The spec's partial-match equality (§4: "Partial-match equality"),
following the claim's words: both sequences → every element of `expected`
contained in `actual`; both maps → every key of `expected` exists in `actual`
with a shallow-equal value; mixed composite kinds → no match; at least one
scalar → strict equality. -/
def claimPartialMatch (expected actual : Option Value) : Bool :=
  match expected, actual with
  | some (.arr xs), some (.arr ys) => xs.all (fun x => ys.any (fun y => jsEq (some x) (some y)))
  | some (.obj ef), some (.obj af) =>
      ef.all (fun p =>
        match lookupField af p.1 with
        | some w => jsEq (some p.2) (some w)
        | none => false)
  | some (.arr _), some (.obj _) => false
  | some (.obj _), some (.arr _) => false
  | e, a => jsEq e a

/-- The own `Object.keys` list of a non-null `typeof 'object'` value. -/
def ownKeys : Value → List String
  | .obj fields => fields.map (fun p => p.1)
  | .arr elems => (List.range elems.length).map (fun i => toString i)
  | _ => []

/-- The amended partial-match equality, as the source behaves: both arrays →
subset containment; otherwise, when both operands are `typeof 'object'`
(objects, arrays of differing kinds, or `null`), the `Object.keys` comparison
applies — throwing a `TypeError` when `expected` is `null`, or when `actual`
is `null` and `expected` has at least one own key — so an expected value with
no own keys matches any `typeof 'object'` actual; otherwise strict
equality. -/
def amendedPartialMatch (cv value : Option Value) : Except String Bool :=
  match cv, value with
  | some (.arr xs), some (.arr ys) =>
      .ok (xs.all (fun x => ys.any (fun y => jsEq (some x) (some y))))
  | some c, some v =>
      if c.typeofObject ∧ v.typeofObject then
        match c with
        | .null => .error "TypeError: Cannot convert undefined or null to object"
        | _ =>
            match v with
            | .null =>
                if (ownKeys c).isEmpty then .ok true
                else .error "TypeError: Cannot read properties of null"
            | _ => .ok ((ownKeys c).all (fun k => jsEq (getProp c k) (getProp v k)))
      else .ok (jsEq (some c) (some v))
  | a, b => .ok (jsEq a b)

theorem everyKeyE_null (c : Value) (ks : List String) :
    everyKeyE c (some .null) ks
      = if ks.isEmpty then .ok true
        else .error "TypeError: Cannot read properties of null" := by
  cases ks <;> rfl

theorem everyKeyE_notnull (c v : Value)
    (hv : ∀ k, propAccessE (some v) k = .ok (getProp v k)) (ks : List String) :
    everyKeyE c (some v) ks = .ok (ks.all (fun k => jsEq (getProp c k) (getProp v k))) := by
  induction ks with
  | nil => rfl
  | cons k ks ih =>
      rw [everyKeyE]
      simp only [hv k, Bind.bind, Except.bind]
      by_cases h : jsEq (getProp c k) (getProp v k)
      · simp [h, ih]
      · simp [h]

theorem objectKeysE_ownKeys (c : Value) (hc : c.typeofObject) (hnull : c ≠ .null) :
    objectKeysE c = .ok (ownKeys c) := by
  cases c <;> simp_all [Value.typeofObject, objectKeysE, ownKeys]

/-- C2 (amended): the partial-match equality used by
`findAbsolutePathByConfigEntry` equals the amended reference definition: both
arrays → expected-subset containment; otherwise, when both operands are
`typeof 'object'` (which includes `null` and mixed array/object pairs), the
`Object.keys` comparison of the expected value's own keys applies, throwing a
`TypeError` on `null` operands as described; strict equality applies only
when at least one operand is not `typeof 'object'`.  (The claim's original
"mixed composite kinds never match" and "null is compared strictly" clauses
are refuted by the counterexample.) -/
theorem claim_C2 (cv value : Option Value) :
    partialEquals cv value = amendedPartialMatch cv value := by
  match cv, value with
  | none, none => rfl
  | none, some v => cases v <;> rfl
  | some c, none => cases c <;> rfl
  | some c, some v =>
      cases c with
      | null =>
          cases v <;> rfl
      | arr xs =>
          cases v with
          | null =>
              show (do
                  let keys ← objectKeysE (.arr xs)
                  everyKeyE (.arr xs) (some .null) keys) = _
              rw [objectKeysE_ownKeys (.arr xs) rfl (by intro h; cases h)]
              simp only [Bind.bind, Except.bind, everyKeyE_null]
              rfl
          | bool b => rfl
          | num n => rfl
          | str s => rfl
          | arr ys => rfl
          | obj af =>
              show (do
                  let keys ← objectKeysE (.arr xs)
                  everyKeyE (.arr xs) (some (.obj af)) keys) = _
              rw [objectKeysE_ownKeys (.arr xs) rfl (by intro h; cases h)]
              simp only [Bind.bind, Except.bind]
              rw [everyKeyE_notnull (.arr xs) (.obj af) (fun k => rfl)]
              rfl
      | obj ef =>
          cases v with
          | null =>
              show (do
                  let keys ← objectKeysE (.obj ef)
                  everyKeyE (.obj ef) (some .null) keys) = _
              rw [objectKeysE_ownKeys (.obj ef) rfl (by intro h; cases h)]
              simp only [Bind.bind, Except.bind, everyKeyE_null]
              rfl
          | bool b => rfl
          | num n => rfl
          | str s => rfl
          | arr ys =>
              show (do
                  let keys ← objectKeysE (.obj ef)
                  everyKeyE (.obj ef) (some (.arr ys)) keys) = _
              rw [objectKeysE_ownKeys (.obj ef) rfl (by intro h; cases h)]
              simp only [Bind.bind, Except.bind]
              rw [everyKeyE_notnull (.obj ef) (.arr ys) (fun k => rfl)]
              rfl
          | obj af =>
              show (do
                  let keys ← objectKeysE (.obj ef)
                  everyKeyE (.obj ef) (some (.obj af)) keys) = _
              rw [objectKeysE_ownKeys (.obj ef) rfl (by intro h; cases h)]
              simp only [Bind.bind, Except.bind]
              rw [everyKeyE_notnull (.obj ef) (.obj af) (fun k => rfl)]
              rfl
      | bool b => cases v <;> rfl
      | num n => cases v <;> rfl
      | str s => cases v <;> rfl

/-! ## Concrete stores used by counterexamples and witnesses -/

theorem option_or_none {α : Type} (o : Option α) : o.or none = o := by
  cases o <;> rfl

/-- Whether a value is composite (sequence or map); everything else,
including `null`, is a scalar for the fallback-defaulting claim. -/
def isComposite : Value → Bool
  | .arr _ => true
  | .obj _ => true
  | _ => false

/-- Merging a scalar found value over any fallback returns the found value
unchanged. -/
theorem mergeVals_scalar_found (b v : Value) (hv : isComposite v = false) :
    mergeVals b v = v := by
  cases b <;> cases v <;> simp_all [mergeVals, isComposite]

/-- The `assign` call sequence of the C1 counterexample: identifier `"a"` is
assigned `{x:1}`, `"b"` is assigned `{x:2}`, then `"a"` is re-assigned
`{x:3}`. -/
def cexC1 : Store :=
  applyCalls emptyStore
    [(.obj [("x", .num 1)], "a"), (.obj [("x", .num 2)], "b"), (.obj [("x", .num 3)], "a")]

/-- The `assign` call sequence of the C3 counterexample: `"a"` is assigned a
non-matching `{x:7}`, `"b"` a matching `{x:1}`, then `"a"` is re-assigned a
matching `{x:1}` — so the most recently added matching layer is `"a"`. -/
def cexC3 : Store :=
  applyCalls emptyStore
    [(.obj [("x", .num 7)], "a"), (.obj [("x", .num 1)], "b"), (.obj [("x", .num 1)], "a")]

/-- A store with two distinct layers, only the first of which matches the
query of the C3 witness. -/
def witC3 : Store :=
  applyCalls emptyStore [(.obj [("x", .num 1)], "a"), (.obj [("y", .num 2)], "b")]

/-- The `assign` call sequence of the C9 counterexample. -/
def cexC9calls : List (Value × String) :=
  [(.obj [("x", .num 1)], "a"), (.obj [("x", .num 2)], "b"), (.obj [("x", .num 3)], "a")]

def cexC9 : Store :=
  applyCalls emptyStore cexC9calls

/-- A store holding one layer whose tree has an explicit `null` at key
`x` (the C7 failing input). -/
def bugStoreC7 : Store :=
  applyCalls emptyStore [(.obj [("x", .null)], "a")]

/-- The store of the spec's fallback-defaulting example: one assigned layer
`{app: {name: "X"}}`. -/
def exampleC4 : Store :=
  applyCalls emptyStore [(.obj [("app", .obj [("name", .str "X")])], "/a")]

/-- A store whose merged tree is `{app: {name: "X"}}` directly (used to
instantiate hypotheses of the C4 theorem in its witness). -/
def witC4store : Store :=
  ⟨.obj [("app", .obj [("name", .str "X")])], false, []⟩

/-- The stores of the C8 escaping round-trip examples. -/
def escStoreC8 : Store :=
  applyCalls emptyStore [(.obj [("a/b", .str "x")], "/a")]

def nestStoreC8 : Store :=
  applyCalls emptyStore [(.obj [("a", .obj [("b", .str "x")])], "/a")]

/-! ## The claims -/

/-- C1, counterexample: after `assign({x:1},"a")`, `assign({x:2},"b")`,
`assign({x:3},"a")` the merged tree is `{x:3}` (every call contributes, in
call order), while the registry holds `a ↦ {x:3}` in its original first slot
followed by `b ↦ {x:2}`, whose insertion-order deep-merge is `{x:2}` — so
the merged tree is NOT the insertion-order merge of the recorded layers when
an identifier is re-assigned. -/
theorem claim_C1_counterexample :
    cexC1.config = .obj [("x", .num 3)]
    ∧ cexC1.layers = [("a", .obj [("x", .num 3)]), ("b", .obj [("x", .num 2)])]
    ∧ cexC1.layers.foldl (fun acc p => deepAssign acc p.2) (.obj []) = .obj [("x", .num 2)]
    ∧ cexC1.config ≠ cexC1.layers.foldl (fun acc p => deepAssign acc p.2) (.obj []) := by
  refine ⟨?_, ?_, ?_, ?_⟩
  · simp [cexC1, applyCalls, assignCore, emptyStore, deepAssign, assignFields, hasKey,
      lookupField, layersSet]
  · simp [cexC1, applyCalls, assignCore, emptyStore, layersSet]
  · simp [cexC1, applyCalls, assignCore, emptyStore, layersSet, deepAssign, assignFields,
      hasKey, lookupField]
  · intro h
    rw [show cexC1.config = .obj [("x", .num 3)] by
          simp [cexC1, applyCalls, assignCore, emptyStore, deepAssign, assignFields, hasKey,
            lookupField, layersSet],
        show cexC1.layers.foldl (fun acc p => deepAssign acc p.2) (.obj [])
            = .obj [("x", .num 2)] by
          simp [cexC1, applyCalls, assignCore, emptyStore, layersSet, deepAssign, assignFields,
            hasKey, lookupField]] at h
    simp at h

/-- C1 (amended): for every sequence of `assign` calls, the store's merged
tree equals the deep-merge, in call order, of the trees of all the calls
(anonymous or identified, repeated identifiers contributing at every call);
this coincides with the insertion-order merge of the recorded layers only
when no identifier is assigned twice. -/
theorem claim_C1 (calls : List (Value × String)) :
    (applyCalls emptyStore calls).config
      = calls.foldl (fun acc c => deepAssign acc c.1) (.obj []) := by
  rw [applyCalls_config]
  rfl

/-- C2, counterexample: the expected value `{}` (an empty map) and the actual
value `["x"]` (a sequence) are mixed composite kinds, which the claim's
reference definition says never match — yet `partialEquals` matches them
(the empty key set of `{}` satisfies the `Object.keys` branch vacuously). -/
theorem claim_C2_counterexample :
    partialEquals (some (.obj [])) (some (.arr [.str "x"])) = .ok true
    ∧ claimPartialMatch (some (.obj [])) (some (.arr [.str "x"])) = false := by
  exact ⟨rfl, rfl⟩

/-- C3, counterexample: in `cexC3` the most recent `assign` call re-added
identifier `"a"` with a tree matching the query `(path "x", value 1)`, but
the loop walks the registry in insertion-slot order (`"a"` keeps its original
first slot), so the last match found is `"b"`, not the most recently added
matching layer `"a"`. -/
theorem claim_C3_counterexample :
    partialEquals (some (.num 1)) (traverse (.obj [("x", .num 1)]) "x" none) = .ok true
    ∧ findAbsolutePathByConfigEntry cexC3 "x" (some (.num 1)) = .ok (some "b")
    ∧ some "b" ≠ some "a" := by
  exact ⟨rfl, rfl, by simp⟩

/-- C3 (amended): for every store, path and expected value such that no
layer comparison throws, `findAbsolutePathByConfigEntry` iterates the layers
in forward registry (insertion-slot) order without stopping at the first
match and returns the identifier of the last layer in that order whose own
raw tree, traversed at the path, partial-match-equals the expected value —
`none` if no layer matches.  ("Last in registry order" equals "most recently
added" only when no identifier was re-assigned; the counterexample separates
them.) -/
theorem claim_C3 (s : Store) (configPath : String) (cv : Option Value)
    (hok : ∀ p ∈ s.layers, (partialEquals cv (traverse p.2 configPath none)).isOk) :
    findAbsolutePathByConfigEntry s configPath cv
      = .ok (((s.layers.filter (matchesLayer cv configPath)).map (fun p => p.1)).getLast?) := by
  rw [findAbsolutePathByConfigEntry, findEntryLoop_ok cv configPath s.layers none hok,
    option_or_none]

/-- C3, witness: on a two-layer store where only layer `"a"` matches, the
theorem applies (no comparison throws) and yields `"a"`. -/
theorem claim_C3_witness :
    findAbsolutePathByConfigEntry witC3 "x" (some (.num 1)) = .ok (some "a") := by
  rw [claim_C3 witC3 "x" (some (.num 1)) (by decide)]
  rfl

/-- C4: `find` combines the raw traversal result with the fallback through
the defaulting deep-merge (modelled from the spec, since `@superhero/deep` is
outside this repository): an absent raw result returns the fallback as-is; a
scalar found value is returned unchanged, ignoring the fallback; two maps
merge with found keys winning (recursively) and fallback supplying keys
absent from the found value; two sequences merge index-wise; and the spec's
example `find("app", {name: false, extra: "Y"})` over `{app: {name: "X"}}`
yields `{name: "X", extra: "Y"}`. -/
theorem claim_C4 :
    (∀ (s : Store) (configPath : String) (fb : Option Value),
        reduceKeys s.config (parseKeys configPath) = none →
        find s configPath fb = fb)
    ∧ (∀ (s : Store) (configPath : String) (fb v : Value),
        reduceKeys s.config (parseKeys configPath) = some v →
        isComposite v = false →
        find s configPath (some fb) = some v)
    ∧ (∀ (s : Store) (configPath : String) (bf vf : List (String × Value)),
        reduceKeys s.config (parseKeys configPath) = some (.obj vf) →
        find s configPath (some (.obj bf))
            = some (.obj (mergeFields bf vf ++ vf.filter (fun p => !hasKey bf p.1)))
          ∧ ∀ k, lookupField (mergeFields bf vf ++ vf.filter (fun p => !hasKey bf p.1)) k
              = match lookupField bf k, lookupField vf k with
                | some bv, some fv => some (mergeVals bv fv)
                | some bv, none => some bv
                | none, some fv => some fv
                | none, none => none)
    ∧ (∀ (s : Store) (configPath : String) (bl vl : List Value),
        reduceKeys s.config (parseKeys configPath) = some (.arr vl) →
        find s configPath (some (.arr bl)) = some (.arr (mergeElems bl vl)))
    ∧ find exampleC4 "app" (some (.obj [("name", .bool false), ("extra", .str "Y")]))
        = some (.obj [("name", .str "X"), ("extra", .str "Y")]) := by
  refine ⟨?_, ?_, ?_, ?_, ?_⟩
  · intro s configPath fb h
    rw [find, traverse, h]
    cases fb <;> rfl
  · intro s configPath fb v h hv
    rw [find, traverse, h]
    show some (mergeVals fb v) = some v
    rw [mergeVals_scalar_found fb v hv]
  · intro s configPath bf vf h
    constructor
    · rw [find, traverse, h]
      show some (mergeVals (.obj bf) (.obj vf)) = _
      rw [mergeVals]
    · intro k
      exact mergeVals_obj_key bf vf k
  · intro s configPath bl vl h
    rw [find, traverse, h]
    show some (mergeVals (.arr bl) (.arr vl)) = _
    rw [mergeVals]
  · simp [exampleC4, applyCalls, assignCore, emptyStore, deepAssign, assignFields, hasKey,
      lookupField, find, traverse, parseKeys, splitSegs, unescape, reduceKeys, reduceStep,
      truthy, getProp, deepMerge, mergeVals, mergeFields, mergeElems]

/-- C4, witness: the absent-raw-result clause applied at a concrete missing
path, and the map-merge clause applied at a concrete store. -/
theorem claim_C4_witness :
    find emptyStore "nope" (some (.str "Z")) = some (.str "Z")
    ∧ find witC4store "app" (some (.obj [("extra", .str "Y")]))
        = some (.obj [("extra", .str "Y"), ("name", .str "X")]) := by
  constructor
  · exact claim_C4.1 emptyStore "nope" (some (.str "Z")) (by rfl)
  · rw [(claim_C4.2.2.1 witC4store "app" [("extra", .str "Y")] [("name", .str "X")]
      (by rfl)).1]
    simp [mergeFields, lookupField, hasKey]

/-- C5, counterexample: against the tree `{a: 0}` at path `a/b`, segment `b`
is missing and the intermediate value `0` is not a traversable container, so
the claim demands `undefined`; the code's `obj && obj[key]` instead returns
the falsy intermediate value `0` itself. -/
theorem claim_C5_counterexample :
    traverse (.obj [("a", .num 0)]) "a/b" none = some (.num 0)
    ∧ some (Value.num 0) ≠ none := by
  exact ⟨rfl, by simp⟩

/-- C5 (amended): the reduce inside `traverse` is a pure total function (it
cannot throw or mutate by construction) that returns the value at the path;
`undefined` propagates, and when the walk reaches a falsy intermediate value
(`0`, `false`, `""`, `null`) it returns that value itself for the whole
remaining path rather than `undefined`; truthy non-containers yield
`undefined` via own-property access (strings also exposing `length` and index
keys). -/
theorem claim_C5 (config : Value) (keys : List String) :
    reduceKeys config keys = traversalSpecAmended (some config) keys := by
  rw [reduceKeys, foldl_reduceStep_eq]

/-- C6: freezing is idempotent and permanent: a second `freeze()` produces
the same state as the first (and `freeze` never throws — it is a total
function); `isFrozen` is true afterwards; every subsequent `assign` fails
with the same `E_CONFIG_FROZEN` error before touching anything, leaving the
merged tree and the layer registry exactly as they were. -/
theorem claim_C6 (s : Store) (t : Value) (id : String) :
    freeze (freeze s) = freeze s
    ∧ (freeze s).isFrozen = true
    ∧ assign (freeze s) t id = .error frozenError
    ∧ frozenError.code = "E_CONFIG_FROZEN"
    ∧ (freeze s).config = s.config
    ∧ (freeze s).layers = s.layers := by
  exact ⟨rfl, rfl, rfl, rfl, rfl, rfl⟩

/-- C7: the claim says lookups never raise, but `findAbsolutePathByConfigEntry`
throws a `TypeError` when the expected value is `null` and a layer value is
`typeof 'object'`: `typeof null === 'object'` routes `null` into the
`Object.keys(configValue)` branch.  Here, against a store whose only layer is
`{x: null}`, the query `("x", null)` evaluates `Object.keys(null)` and
throws.  (`find`, `findAbsolutePathByConfigPath` and
`findAbsolutePathAndValueByConfigPath` are total by construction in this
embedding, matching the claim.) -/
theorem claim_C7 :
    findAbsolutePathByConfigEntry bugStoreC7 "x" (some .null)
      = .error "TypeError: Cannot convert undefined or null to object" := by
  rfl

/-- C8: the path parser splits on every slash not preceded by a backslash
and strips the backslash of every backslash-slash pair (it agrees with the
spec's left-to-right grammar on every input string); the empty path yields a
single empty segment, a trailing delimiter yields a trailing empty segment;
and the escaping round-trips hold: `find("a\\/b")` over `{"a/b": "x"}` and
`find("a/b")` over `{a: {b: "x"}}` both yield `"x"`. -/
theorem claim_C8 :
    (∀ s : String, parseKeys s = pathGrammarSpec s)
    ∧ parseKeys "" = [""]
    ∧ parseKeys "a/" = ["a", ""]
    ∧ parseKeys "a\\/b" = ["a/b"]
    ∧ parseKeys "a/b" = ["a", "b"]
    ∧ find escStoreC8 "a\\/b" none = some (.str "x")
    ∧ find nestStoreC8 "a/b" none = some (.str "x") := by
  refine ⟨?_, rfl, rfl, rfl, rfl, ?_, ?_⟩
  · intro s
    exact splitSegs_grammar s.data [] none [] (by simp) rfl
  · simp [escStoreC8, applyCalls, assignCore, emptyStore, deepAssign, assignFields, hasKey,
      lookupField, find, traverse, parseKeys, splitSegs, unescape, reduceKeys, reduceStep,
      truthy, getProp, deepMerge]
  · simp [nestStoreC8, applyCalls, assignCore, emptyStore, deepAssign, assignFields, hasKey,
      lookupField, find, traverse, parseKeys, splitSegs, unescape, reduceKeys, reduceStep,
      truthy, getProp, deepMerge]

/-- C9, counterexample: in `cexC9` the most recent `assign` call used
identifier `"a"` (whose layer has a defined value at `x`), yet
`findAbsolutePathAndValueByConfigPath "x"` lists `("b", 2)` first and
`("a", 3)` last, because the listing is in reverse insertion-slot order and
the re-added `"a"` kept its original first slot — so the order is not
most-recently-added first. -/
theorem claim_C9_counterexample :
    (cexC9calls.getLast?).map (fun c => c.2) = some "a"
    ∧ traverse (.obj [("x", .num 3)]) "x" none = some (.num 3)
    ∧ findAbsolutePathAndValueByConfigPath cexC9 "x" = [("b", .num 2), ("a", .num 3)]
    ∧ ("b" : String) ≠ "a" := by
  exact ⟨rfl, rfl, rfl, by simp⟩

/-- C9 (amended): for every store and path,
`findAbsolutePathAndValueByConfigPath` returns exactly one
`(identifier, value)` pair per layer whose raw tree yields a defined value at
the path, ordered from the last registry slot to the first (reverse insertion
order); this is most-recently-added first only when no identifier was
re-assigned. -/
theorem claim_C9 (s : Store) (configPath : String) :
    findAbsolutePathAndValueByConfigPath s configPath
      = (s.layers.filterMap
          (fun p => (traverse p.2 configPath none).map (fun v => (p.1, v)))).reverse := by
  rw [findAbsolutePathAndValueByConfigPath, foldl_unshift_eq]
  simp

/-- C10: every anonymous `assign` records its tree under the single registry
key `""`: after any nonempty sequence of anonymous assigns from a fresh
store, the registry holds exactly one entry, `("", last tree)` — provenance
queries therefore see only the last anonymous tree — while the merged tree
is the deep-merge of all the assigned trees in call order. -/
theorem claim_C10 (ts : List Value) (t : Value) :
    (applyAnonCalls emptyStore (ts ++ [t])).layers = [("", t)]
    ∧ (applyAnonCalls emptyStore (ts ++ [t])).config
        = (ts ++ [t]).foldl (fun acc u => deepAssign acc u) (.obj []) := by
  constructor
  · rw [applyAnonCalls_layers]
    show (ts ++ [t]).foldl (fun L u => layersSet L "" u) [] = [("", t)]
    cases ts with
    | nil => rfl
    | cons v rest =>
        simp only [List.cons_append, List.foldl_cons]
        show (rest ++ [t]).foldl (fun L u => layersSet L "" u) [("", v)] = [("", t)]
        exact foldl_layersSet_anon rest t v
  · rw [applyAnonCalls_config]
    rfl

end SuperheroConfig
